import Mathlib

set_option maxHeartbeats 2000000

/-!
Shallow embedding of the Modified UTF-8 codec of `src/string.rs` (crate lcjvm).
Byte buffers are `List Nat` (each element a `u8` value), 16-bit code units and
Unicode scalars are `Nat`.  Fallible operations return `Except`/`Option`.
-/

/-- Error type of the validator, mirroring `ModifiedUtf8Error { pos, len }`. -/
structure ModifiedUtf8Error where
  pos : Nat
  len : Option Nat
deriving DecidableEq

/-- Accessor mirroring `ModifiedUtf8Error::valid_up_to`. -/
def ModifiedUtf8Error.valid_up_to (e : ModifiedUtf8Error) : Nat := e.pos

/-- Accessor mirroring `ModifiedUtf8Error::error_len`. -/
def ModifiedUtf8Error.error_len (e : ModifiedUtf8Error) : Option Nat := e.len

/-- Model of `char::from_u32` from the Rust standard library: `some v` exactly
when `v` is a Unicode scalar value (below `0x110000` and not a surrogate). -/
def char_from_u32 (v : Nat) : Option Nat :=
  if v < 0x110000 ∧ ¬(0xd800 ≤ v ∧ v ≤ 0xdfff) then some v else none

/-- Decoded 16-bit value of a 3-byte group, the `val` local of the validator
(src/string.rs lines 264-266). -/
def mutf8Val (b cont1 cont2 : Nat) : Nat :=
  ((b &&& 0xf) <<< 12) ||| ((cont1 &&& 0x3f) <<< 6) ||| (cont2 &&& 0x3f)

/-- Loop of `validate_modified_utf8` (src/string.rs lines 224-290).  The three
arguments are the remaining bytes, the byte position of the head of that list
in the original buffer, and the `pair_start` state (decoded high-surrogate
value and its byte position).  Note, faithful to the source: the 3-byte branch
does not consult `pair_start` before consuming continuation bytes, a successful
surrogate combination does not clear `pair_start`, the combination is computed
as `0x10000 + ((high &&& 0x3fff) <<< 10) + (val &&& 0x3fff)`, and the loop
returns `ok` at end of input even when a pairing is still pending. -/
def validateLoop : List Nat → Nat → Option (Nat × Nat) → Except ModifiedUtf8Error Unit
  | [], _, _ => .ok ()
  | b :: rest, pos, pairStart =>
    if b = 0 then
      match pairStart with
      | some (_, p) => .error ⟨p, some 3⟩
      | none => .error ⟨pos, some 1⟩
    else if b &&& 0xc0 = 0x80 then
      match pairStart with
      | some (_, p) => .error ⟨p, some 3⟩
      | none => .error ⟨pos, some 1⟩
    else if b &&& 0xe0 = 0xc0 then
      match pairStart with
      | some (_, p) => .error ⟨p, some 3⟩
      | none =>
        match rest with
        | [] => .error ⟨pos + 1, none⟩
        | cont :: rest2 =>
          if cont &&& 0xc0 ≠ 0x80 then .error ⟨pos, some 2⟩
          else validateLoop rest2 (pos + 2) none
    else if b &&& 0xf0 = 0xe0 then
      match rest with
      | [] => .error ⟨pos + 1, none⟩
      | cont1 :: rest2 =>
        if cont1 &&& 0xc0 ≠ 0x80 then .error ⟨pos, some 3⟩
        else
          match rest2 with
          | [] => .error ⟨pos + 2, none⟩
          | cont2 :: rest3 =>
            if cont2 &&& 0xc0 ≠ 0x80 then .error ⟨pos, some 3⟩
            else
              if 0xd800 ≤ mutf8Val b cont1 cont2 ∧ mutf8Val b cont1 cont2 ≤ 0xdbff then
                match pairStart with
                | some (_, p) => .error ⟨p, some 3⟩
                | none => validateLoop rest3 (pos + 3) (some (mutf8Val b cont1 cont2, pos))
              else if 0xdc00 ≤ mutf8Val b cont1 cont2 ∧ mutf8Val b cont1 cont2 ≤ 0xdfff then
                match pairStart with
                | some (high, p) =>
                  if (char_from_u32
                        (0x10000 + ((high &&& 0x3fff) <<< 10) + (mutf8Val b cont1 cont2 &&& 0x3fff))).isNone
                  then .error ⟨p, some 6⟩
                  else validateLoop rest3 (pos + 3) (some (high, p))
                | none => validateLoop rest3 (pos + 3) none
              else
                match pairStart with
                | some (_, p) => .error ⟨p, some 3⟩
                | none => validateLoop rest3 (pos + 3) none
    else if b &&& 0xf0 = 0xf0 then .error ⟨pos, some 1⟩
    else
      match pairStart with
      | some (_, p) => .error ⟨p, some 3⟩
      | none => validateLoop rest (pos + 1) none

/-- `validate_modified_utf8(x)` (src/string.rs line 224). -/
def validate_modified_utf8 (x : List Nat) : Except ModifiedUtf8Error Unit :=
  validateLoop x 0 none

/-- Result of one `Iterator::next` call: end of stream, a yielded element, or a
branch the source marks unreachable (a `debug_unreachable!` /
`unreachable_unchecked` arm, or a panicking `unwrap`). -/
inductive IterStep (α : Type) where
  | done : IterStep α
  | yield : α → IterStep α
  | stuck : IterStep α
deriving DecidableEq

/-- One step of `JChars::next` (src/string.rs lines 130-174) over the remaining
bytes: yields the decoded 16-bit code unit and the remaining bytes.  `stuck`
models the `unreachable_unchecked` arms reached when the buffer ends inside a
multi-byte sequence. -/
def JChars.next : List Nat → IterStep (Nat × List Nat)
  | [] => .done
  | first :: rest =>
    if first &&& 0x80 = 0 then .yield (first, rest)
    else if first &&& 0xe0 = 0xc0 then
      match rest with
      | [] => .stuck
      | next :: rest2 => .yield (((first &&& 0x1f) <<< 6) ||| (next &&& 0x3f), rest2)
    else
      match rest with
      | next1 :: next2 :: rest3 =>
        .yield (((first &&& 0xf) <<< 12) ||| ((next1 &&& 0x3f) <<< 6) ||| (next2 &&& 0x3f), rest3)
      | _ => .stuck

/-- One step of `Chars::next` (src/string.rs lines 180-206).  Faithful to the
source, the surrogate recombination is
`0x10000 + ((val & 0x3ff) << 10) + next as u32 & 0x3fff`, in which, by Rust
operator precedence, `&&& 0x3fff` applies to the whole sum.  `stuck` models the
`unreachable_unchecked` arm (high surrogate with nothing following) and a
panicking `from_u32(val).unwrap()`. -/
def Chars.next (l : List Nat) : IterStep (Nat × List Nat) :=
  match JChars.next l with
  | .done => .done
  | .stuck => .stuck
  | .yield (u, rest) =>
    if 0xd800 ≤ u ∧ u ≤ 0xdbff then
      match JChars.next rest with
      | .yield (u2, rest2) =>
        match char_from_u32 ((0x10000 + ((u &&& 0x3ff) <<< 10) + u2) &&& 0x3fff) with
        | some c => .yield (c, rest2)
        | none => .stuck
      | _ => .stuck
    else
      match char_from_u32 u with
      | some c => .yield (c, rest)
      | none => .stuck

/-- `JStr::encode_char` (src/string.rs lines 382-407), as the byte list of the
returned slice.  Faithful to the source: the 3-byte branch guard is
`x < 0x80000` (not `0x10000`); in the final branch the pattern
`let mut u16 @ [h, w] = [0; 2];` binds `h` and `w` to `0` by copy before
`encode_utf16` writes into the array, and the returned slice is `bytes[..3]`,
so that branch returns the three bytes built from `h = 0`. -/
def JStr.encode_char (x : Nat) : List Nat :=
  if x < 0x80 then [x]
  else if x < 0x800 then
    [0xc0 ||| ((x >>> 6) &&& 0x1f), 0x80 ||| (x &&& 0x3f)]
  else if x < 0x80000 then
    [0xe0 ||| ((x >>> 12) &&& 0xf), 0x80 ||| ((x >>> 6) &&& 0x3f), 0x80 ||| (x &&& 0x3f)]
  else
    [0xe0 ||| ((0 >>> 12) &&& 0xf), 0x80 ||| ((0 >>> 6) &&& 0x3f), 0x80 ||| (0 &&& 0x3f)]

/-- Standard UTF-8 encoding of one Unicode scalar value, modelling how the Rust
standard library lays out the bytes of a `str` (external to this repository). -/
def utf8EncodeChar (c : Nat) : List Nat :=
  if c < 0x80 then [c]
  else if c < 0x800 then [0xc0 ||| (c >>> 6), 0x80 ||| (c &&& 0x3f)]
  else if c < 0x10000 then
    [0xe0 ||| (c >>> 12), 0x80 ||| ((c >>> 6) &&& 0x3f), 0x80 ||| (c &&& 0x3f)]
  else
    [0xf0 ||| (c >>> 18), 0x80 ||| ((c >>> 12) &&& 0x3f), 0x80 ||| ((c >>> 6) &&& 0x3f),
     0x80 ||| (c &&& 0x3f)]

/-- Model of `char::len_utf8` from the Rust standard library. -/
def len_utf8 (c : Nat) : Nat :=
  if c < 0x80 then 1 else if c < 0x800 then 2 else if c < 0x10000 then 3 else 4

/-- UTF-8 byte representation of a string, given as its list of scalar values. -/
def utf8Encode (s : List Nat) : List Nat :=
  (s.map utf8EncodeChar).flatten

/-- Decoded scalar of a standard UTF-8 2-byte sequence. -/
def utf8Val2 (b0 b1 : Nat) : Nat := ((b0 &&& 0x1f) <<< 6) ||| (b1 &&& 0x3f)

/-- Decoded scalar of a standard UTF-8 3-byte sequence. -/
def utf8Val3 (b0 b1 b2 : Nat) : Nat :=
  ((b0 &&& 0xf) <<< 12) ||| ((b1 &&& 0x3f) <<< 6) ||| (b2 &&& 0x3f)

/-- Decoded scalar of a standard UTF-8 4-byte sequence. -/
def utf8Val4 (b0 b1 b2 b3 : Nat) : Nat :=
  ((b0 &&& 0x7) <<< 18) ||| ((b1 &&& 0x3f) <<< 12) ||| ((b2 &&& 0x3f) <<< 6) ||| (b3 &&& 0x3f)

/-- Model of `std::str::from_utf8` followed by collecting `str::chars`
(external to this repository): decodes a byte buffer as standard UTF-8 into
the scalars accumulated so far (in reverse), returning `none` on any
ill-formed input (truncated or overlong sequences, surrogates, values above
0x10FFFF). -/
def utf8DecodeLoop : List Nat → List Nat → Option (List Nat)
  | [], acc => some acc.reverse
  | b0 :: rest, acc =>
    if b0 < 0x80 then utf8DecodeLoop rest (b0 :: acc)
    else if b0 &&& 0xe0 = 0xc0 then
      match rest with
      | [] => none
      | b1 :: rest1 =>
        if b1 &&& 0xc0 = 0x80 then
          if 0x80 ≤ utf8Val2 b0 b1 then utf8DecodeLoop rest1 (utf8Val2 b0 b1 :: acc)
          else none
        else none
    else if b0 &&& 0xf0 = 0xe0 then
      match rest with
      | [] => none
      | b1 :: rest1 =>
        match rest1 with
        | [] => none
        | b2 :: rest2 =>
          if b1 &&& 0xc0 = 0x80 ∧ b2 &&& 0xc0 = 0x80 then
            if 0x800 ≤ utf8Val3 b0 b1 b2 ∧ (char_from_u32 (utf8Val3 b0 b1 b2)).isSome then
              utf8DecodeLoop rest2 (utf8Val3 b0 b1 b2 :: acc)
            else none
          else none
    else if b0 &&& 0xf8 = 0xf0 then
      match rest with
      | [] => none
      | b1 :: rest1 =>
        match rest1 with
        | [] => none
        | b2 :: rest2 =>
          match rest2 with
          | [] => none
          | b3 :: rest3 =>
            if b1 &&& 0xc0 = 0x80 ∧ b2 &&& 0xc0 = 0x80 ∧ b3 &&& 0xc0 = 0x80 then
              if 0x10000 ≤ utf8Val4 b0 b1 b2 b3 ∧ utf8Val4 b0 b1 b2 b3 < 0x110000 then
                utf8DecodeLoop rest3 (utf8Val4 b0 b1 b2 b3 :: acc)
              else none
            else none
    else none

/-- Full standard UTF-8 decode of a byte buffer, modelling
`std::str::from_utf8` plus `str::chars` (external to this repository). -/
def utf8DecodeAll (l : List Nat) : Option (List Nat) :=
  utf8DecodeLoop l []

/-- First scalar of a byte buffer assumed to be valid UTF-8, modelling the
`str::chars().next()` call on `from_utf8_unchecked(bytes)` in
`JStr::from_utf8_str` (src/string.rs lines 428-431). -/
def utf8DecodeFirst : List Nat → Option Nat
  | [] => none
  | b0 :: rest =>
    if b0 < 0x80 then some b0
    else if b0 &&& 0xe0 = 0xc0 then
      match rest with
      | [] => none
      | b1 :: _ => some (utf8Val2 b0 b1)
    else if b0 &&& 0xf0 = 0xe0 then
      match rest with
      | [] => none
      | b1 :: rest1 =>
        match rest1 with
        | [] => none
        | b2 :: _ => some (utf8Val3 b0 b1 b2)
    else
      match rest with
      | [] => none
      | b1 :: rest1 =>
        match rest1 with
        | [] => none
        | b2 :: rest2 =>
          match rest2 with
          | [] => none
          | b3 :: _ => some (utf8Val4 b0 b1 b2 b3)

/-- Model of `char::encode_utf16` from the Rust standard library: the UTF-16
code units of a scalar value. -/
def encode_utf16 (c : Nat) : List Nat :=
  if c < 0x10000 then [c]
  else [0xd800 + ((c - 0x10000) >>> 10), 0xdc00 + ((c - 0x10000) &&& 0x3ff)]

/-- Per-unit encoder of the repair path of `JStr::from_utf8_str`
(src/string.rs lines 438-453): a UTF-16 code unit re-encoded as 1, 2 or 3
bytes. -/
def mutf8_unit (u : Nat) : List Nat :=
  if u < 0x80 then [u]
  else if u < 0x800 then [(u >>> 6) ||| 0xc0, (u &&& 0x3f) ||| 0x80]
  else [(u >>> 12) ||| 0xe0, ((u >>> 6) &&& 0x3f) ||| 0x80, (u &&& 0x3f) ||| 0x80]

/-- Repair loop of `JStr::from_utf8_str` (src/string.rs lines 425-464), with an
explicit fuel argument since the source loop has no other bound.  Faithful to
the source, line 432 keeps only the bytes of the just-repaired scalar
(`bytes = &bytes[..c.len_utf8()]`), then re-validates those bytes.  `none`
means the fuel ran out (the source loop is still running) or a panicking
`unwrap` on an empty tail. -/
def from_utf8_repair_loop : Nat → List Nat → List Nat → Option (List Nat)
  | 0, _, _ => none
  | fuel + 1, bytes, vec =>
    match utf8DecodeFirst bytes with
    | none => none
    | some c =>
      let bytes2 := bytes.take (len_utf8 c)
      let vec2 := if c = 0 then vec ++ [0xc0, 0x80]
                  else vec ++ ((encode_utf16 c).map mutf8_unit).flatten
      match validateLoop bytes2 0 none with
      | .error e => from_utf8_repair_loop fuel (bytes2.drop e.pos) (vec2 ++ bytes2.take e.pos)
      | .ok _ => some (vec2 ++ bytes2)

/-- `JStr::from_utf8_str` (src/string.rs lines 416-471) on a string given as
its list of scalar values.  `some (true, bytes)` is the `Cow::Borrowed` result
over the bytes of the input, `some (false, bytes)` the `Cow::Owned` result of
the repair loop, and `none` means the repair loop did not finish within the
fuel. -/
def JStr.from_utf8_str (fuel : Nat) (s : List Nat) : Option (Bool × List Nat) :=
  match validateLoop (utf8Encode s) 0 none with
  | .ok _ => some (true, utf8Encode s)
  | .error e =>
    (from_utf8_repair_loop fuel ((utf8Encode s).drop e.pos) ((utf8Encode s).take e.pos)).map
      (fun v => (false, v))

/-- `JStr::into_str` (src/string.rs lines 409-414), restricted to its
`Cow::Borrowed` branch: when `std::str::from_utf8` succeeds the buffer is
returned decoded as standard UTF-8.  The `Err` branch (materializing an owned
string through the `Display` loop) is not modelled; `none` stands for it. -/
def JStr.into_str (bytes : List Nat) : Option (List Nat) :=
  utf8DecodeAll bytes

/-- `JStr::make_ascii_lowercase` (src/string.rs lines 366-372): every byte `b`
with `0x40 < b < 0x5b` gets bit `0x20` set; all other bytes are untouched. -/
def JStr.make_ascii_lowercase (l : List Nat) : List Nat :=
  l.map (fun b => if 0x40 < b ∧ b < 0x5b then b ||| 0x20 else b)

/-- `JStr::make_ascii_uppercase` (src/string.rs lines 374-380): every byte `b`
with `0x60 < b < 0x7b` gets bit `0x20` cleared (`b &= !0x20`, and `!0x20` on a
`u8` is `0xdf`); all other bytes are untouched. -/
def JStr.make_ascii_uppercase (l : List Nat) : List Nat :=
  l.map (fun b => if 0x60 < b ∧ b < 0x7b then b &&& 0xdf else b)

/-- C1: the spec states that encoding U+1F600 yields a 6-byte sequence, that the
scalar iterator decodes that sequence back to U+1F600, and that the code-unit
iterator yields 0xD83D then 0xDE00.  On the code, `encode_char 0x1F600` takes
the `x < 0x80000` branch and returns the 3-byte list `[0xEF, 0x98, 0x80]`, and
`Chars::next` on the true 6-byte encoding `[0xED, 0xA0, 0xBD, 0xED, 0xB8, 0x80]`
yields U+1200 (the `&&& 0x3fff` applies to the whole recombination sum); only
the code-unit iterator behaves as stated. -/
theorem c1_surrogate_round_trip_bug :
    JStr.encode_char 0x1F600 = [0xEF, 0x98, 0x80] ∧
    JChars.next [0xED, 0xA0, 0xBD, 0xED, 0xB8, 0x80] = .yield (0xD83D, [0xED, 0xB8, 0x80]) ∧
    JChars.next [0xED, 0xB8, 0x80] = .yield (0xDE00, []) ∧
    Chars.next [0xED, 0xA0, 0xBD, 0xED, 0xB8, 0x80] = .yield (0x1200, []) :=
  ⟨rfl, rfl, rfl, rfl⟩

/-- C2: the spec states that the 6-byte surrogate-pair encoding of a scalar at
or above 0x10000 is accepted by the validator.  On the code, the recombination
`0x10000 + ((high &&& 0x3fff) <<< 10) + (low &&& 0x3fff)` always exceeds
0x10FFFF, so `char::from_u32` is `none` and every such pair is rejected with a
length-6 error: here the encoding of U+1F600. -/
theorem c2_surrogate_pair_rejected :
    validate_modified_utf8 [0xED, 0xA0, 0xBD, 0xED, 0xB8, 0x80] = .error ⟨0, some 6⟩ :=
  rfl

/-- C4: the spec states that the repair loop of `from_utf8_str` strictly
consumes the remaining tail and terminates.  On the code, line 432 reassigns
`bytes = &bytes[..c.len_utf8()]` (the bytes of the just-repaired scalar, not
the tail after it), so after re-validation the loop state repeats: started on
the single NUL byte, the loop re-encodes the same scalar forever and never
returns, whatever the fuel. -/
theorem c4_repair_loop_diverges :
    ∀ (fuel : Nat) (vec : List Nat), from_utf8_repair_loop fuel [0x00] vec = none := by
  intro fuel
  induction fuel with
  | zero => intro vec; rfl
  | succ n ih =>
    intro vec
    have h : from_utf8_repair_loop (n + 1) [0x00] vec
        = from_utf8_repair_loop n [0x00] ((vec ++ [0xc0, 0x80]) ++ []) := rfl
    rw [h]
    exact ih _

/-- Helper for C3: the repair loop never returns when started on the UTF-8
bytes of U+1F600, since line 432 keeps the bytes of the repaired scalar itself
and those bytes fail validation at offset 0 again on every iteration. -/
theorem from_utf8_repair_loop_u1F600 :
    ∀ (fuel : Nat) (vec : List Nat),
      from_utf8_repair_loop fuel [0xF0, 0x9F, 0x98, 0x80] vec = none := by
  intro fuel
  induction fuel with
  | zero => intro vec; rfl
  | succ n ih =>
    intro vec
    have h : from_utf8_repair_loop (n + 1) [0xF0, 0x9F, 0x98, 0x80] vec
        = from_utf8_repair_loop n [0xF0, 0x9F, 0x98, 0x80]
            ((vec ++ [0xED, 0xA0, 0xBD, 0xED, 0xB8, 0x80]) ++ []) := rfl
    rw [h]
    exact ih _

/-- C3: the spec states that lossy conversion never fails and produces a buffer
the validator accepts.  On the code, any input that actually needs repair sends
`from_utf8_str` into its repair loop, which never terminates (line 432 keeps
the repaired scalar in place of the tail): on the one-scalar string U+1F600 no
buffer is ever produced, whatever the fuel. -/
theorem c3_lossy_conversion_diverges :
    ∀ (fuel : Nat), JStr.from_utf8_str fuel [0x1F600] = none := by
  intro fuel
  have h : JStr.from_utf8_str fuel [0x1F600]
      = (from_utf8_repair_loop fuel [0xF0, 0x9F, 0x98, 0x80] []).map
          (fun v => (false, v)) := rfl
  rw [h, from_utf8_repair_loop_u1F600 fuel []]
  rfl

/-- C5: the spec states that a buffer ending right after a lone high-surrogate
encoding is rejected with a length-3 error at the pending surrogate.  On the
code, the scan loop has no pending-pair check at loop exit and returns
success on `[0xED, 0xA0, 0xBD]` (a lone U+D83D). -/
theorem c5_trailing_high_surrogate_accepted :
    validate_modified_utf8 [0xED, 0xA0, 0xBD] = .ok () :=
  rfl

/-- C6: the spec states that encoding the NUL scalar yields `{0xC0, 0x80}`.  On
the code, `encode_char 0` takes the `x < 0x80` branch and returns the single
byte `[0x00]` (which the validator itself rejects with a length-1 error at
position 0, per the second half of the claim, which does hold). -/
theorem c6_nul_encoding_bug :
    JStr.encode_char 0 = [0x00] ∧
    validate_modified_utf8 [0x00] = .error ⟨0, some 1⟩ :=
  ⟨rfl, rfl⟩

/-- C8: the spec (and the SAFETY comments in the source) state that on a buffer
accepted by the validator, `Chars::next` never reaches its assumed-unreachable
branches.  On the code, the validator accepts `[0xED, 0xA0, 0x80]` (a lone
trailing high surrogate U+D800, since no pending-pair check happens at loop
exit), yet `Chars::next` on it decodes the high surrogate and then calls
`next()` on an exhausted stream, reaching the `unreachable_unchecked` arm. -/
theorem c8_chars_reaches_unreachable :
    validate_modified_utf8 [0xED, 0xA0, 0x80] = .ok () ∧
    Chars.next [0xED, 0xA0, 0x80] = .stuck :=
  ⟨rfl, rfl⟩

/-- Helper for C7: whenever the scan of `l` from position `pos` with pairing
state `ps` reports an error of known length, either the error is positioned at
the pending pairing the scan was entered with, or the error position is at or
after `pos` and rescanning just the bytes up to it succeeds (the scan accepts
every prefix it traversed without error, since end of input is always accepted,
whatever the pairing state). -/
theorem validateLoop_take_ok :
    ∀ (l : List Nat) (pos : Nat) (ps : Option (Nat × Nat)) (e : ModifiedUtf8Error) (n : Nat),
      validateLoop l pos ps = .error e → e.len = some n →
      (∃ v, ps = some (v, e.pos)) ∨
      (pos ≤ e.pos ∧ validateLoop (List.take (e.pos - pos) l) pos ps = .ok ()) := by
  intro l pos ps
  induction l, pos, ps using validateLoop.induct with
  | case1 pos ps =>
    intro e n heq hlen
    rw [validateLoop.eq_def] at heq
    simp only [] at heq
    exact Except.noConfusion heq
  | case2 rest pos fst p =>
    intro e n heq hlen
    rw [validateLoop.eq_def] at heq
    simp only [] at heq
    injection heq with h
    subst h
    exact Or.inl ⟨fst, rfl⟩
  | case3 rest pos =>
    intro e n heq hlen
    rw [validateLoop.eq_def] at heq
    simp only [] at heq
    injection heq with h
    subst h
    refine Or.inr ⟨Nat.le_refl _, ?_⟩
    simp only [Nat.sub_self, List.take_zero]
    rfl
  | case4 b rest pos h1 h2 fst p =>
    intro e n heq hlen
    rw [validateLoop.eq_def] at heq
    simp only [ne_eq, h1, h2, if_true, if_false] at heq
    injection heq with h
    subst h
    exact Or.inl ⟨fst, rfl⟩
  | case5 b rest pos h1 h2 =>
    intro e n heq hlen
    rw [validateLoop.eq_def] at heq
    simp only [ne_eq, h1, h2, if_true, if_false] at heq
    injection heq with h
    subst h
    refine Or.inr ⟨Nat.le_refl _, ?_⟩
    simp only [Nat.sub_self, List.take_zero]
    rfl
  | case6 b rest pos h1 h2 h3 fst p =>
    intro e n heq hlen
    rw [validateLoop.eq_def] at heq
    simp only [ne_eq, h1, h2, h3, if_true, if_false] at heq
    injection heq with h
    subst h
    exact Or.inl ⟨fst, rfl⟩
  | case7 b pos h1 h2 h3 =>
    intro e n heq hlen
    rw [validateLoop.eq_def] at heq
    simp only [ne_eq, h1, h2, h3, if_true, if_false] at heq
    injection heq with h
    subst h
    exact Option.noConfusion hlen
  | case8 b pos h1 h2 h3 cont rest2 h4 =>
    intro e n heq hlen
    rw [validateLoop.eq_def] at heq
    simp only [ne_eq, h1, h2, h3, h4, not_false_eq_true, if_true, if_false] at heq
    injection heq with h
    subst h
    refine Or.inr ⟨Nat.le_refl _, ?_⟩
    simp only [Nat.sub_self, List.take_zero]
    rfl
  | case9 b pos h1 h2 h3 cont rest2 h4 ih =>
    intro e n heq hlen
    rw [validateLoop.eq_def] at heq
    simp only [ne_eq, h1, h2, h3, h4, if_true, if_false] at heq
    rcases ih e n heq hlen with ⟨v, hv⟩ | ⟨hle, hok⟩
    · exact Option.noConfusion hv
    · refine Or.inr ⟨by omega, ?_⟩
      have hk : e.pos - pos = (e.pos - (pos + 2)) + 1 + 1 := by omega
      rw [hk, List.take_succ_cons, List.take_succ_cons, validateLoop.eq_def]
      simpa only [ne_eq, h1, h2, h3, h4, if_true, if_false] using hok
  | case10 b pos ps h1 h2 h3 h4 =>
    intro e n heq hlen
    rw [validateLoop.eq_def] at heq
    simp only [ne_eq, h1, h2, h3, h4, if_true, if_false] at heq
    injection heq with h
    subst h
    exact Option.noConfusion hlen
  | case11 b pos ps h1 h2 h3 h4 cont rest2 h5 =>
    intro e n heq hlen
    rw [validateLoop.eq_def] at heq
    simp only [ne_eq, h1, h2, h3, h4, h5, not_false_eq_true, if_true, if_false] at heq
    injection heq with h
    subst h
    refine Or.inr ⟨Nat.le_refl _, ?_⟩
    simp only [Nat.sub_self, List.take_zero]
    rfl
  | case12 b pos ps h1 h2 h3 h4 cont h5 =>
    intro e n heq hlen
    rw [validateLoop.eq_def] at heq
    simp only [ne_eq, h1, h2, h3, h4, h5, if_true, if_false] at heq
    injection heq with h
    subst h
    exact Option.noConfusion hlen
  | case13 b pos ps h1 h2 h3 h4 cont1 h5 cont2 rest2 h6 =>
    intro e n heq hlen
    rw [validateLoop.eq_def] at heq
    simp only [ne_eq, h1, h2, h3, h4, h5, h6, not_false_eq_true, if_true, if_false] at heq
    injection heq with h
    subst h
    refine Or.inr ⟨Nat.le_refl _, ?_⟩
    simp only [Nat.sub_self, List.take_zero]
    rfl
  | case14 b pos h1 h2 h3 h4 cont1 h5 cont2 rest2 h6 hval fst p =>
    intro e n heq hlen
    rw [validateLoop.eq_def] at heq
    simp only [ne_eq, h1, h2, h3, h4, h5, h6, hval, and_self, if_true, if_false] at heq
    injection heq with h
    subst h
    exact Or.inl ⟨fst, rfl⟩
  | case15 b pos h1 h2 h3 h4 cont1 h5 cont2 rest2 h6 hval ih =>
    intro e n heq hlen
    rw [validateLoop.eq_def] at heq
    simp only [ne_eq, h1, h2, h3, h4, h5, h6, hval, and_self, if_true, if_false] at heq
    rcases ih e n heq hlen with ⟨v, hv⟩ | ⟨hle, hok⟩
    · simp only [Option.some.injEq, Prod.mk.injEq] at hv
      refine Or.inr ⟨by omega, ?_⟩
      rw [show e.pos - pos = 0 by omega, List.take_zero]
      rfl
    · refine Or.inr ⟨by omega, ?_⟩
      have hk : e.pos - pos = (e.pos - (pos + 3)) + 1 + 1 + 1 := by omega
      rw [hk, List.take_succ_cons, List.take_succ_cons, List.take_succ_cons, validateLoop.eq_def]
      simpa only [ne_eq, h1, h2, h3, h4, h5, h6, hval, and_self, if_true, if_false] using hok
  | case16 b pos h1 h2 h3 h4 cont1 h5 cont2 rest2 h6 h7 h8 fst p h9 =>
    intro e n heq hlen
    rw [validateLoop.eq_def] at heq
    simp only [ne_eq, h1, h2, h3, h4, h5, h6, h7, h8, h9, and_self, if_true, if_false] at heq
    injection heq with h
    subst h
    exact Or.inl ⟨fst, rfl⟩
  | case17 b pos h1 h2 h3 h4 cont1 h5 cont2 rest2 h6 h7 h8 fst p h9 ih =>
    intro e n heq hlen
    rw [validateLoop.eq_def] at heq
    simp only [ne_eq, h1, h2, h3, h4, h5, h6, h7, h8, h9, and_self, if_true, if_false] at heq
    rcases ih e n heq hlen with ⟨v, hv⟩ | ⟨hle, hok⟩
    · exact Or.inl ⟨v, hv⟩
    · refine Or.inr ⟨by omega, ?_⟩
      have hk : e.pos - pos = (e.pos - (pos + 3)) + 1 + 1 + 1 := by omega
      rw [hk, List.take_succ_cons, List.take_succ_cons, List.take_succ_cons, validateLoop.eq_def]
      simpa only [ne_eq, h1, h2, h3, h4, h5, h6, h7, h8, h9, and_self, if_true, if_false] using hok
  | case18 b pos h1 h2 h3 h4 cont1 h5 cont2 rest2 h6 h7 h8 ih =>
    intro e n heq hlen
    rw [validateLoop.eq_def] at heq
    simp only [ne_eq, h1, h2, h3, h4, h5, h6, h7, h8, and_self, if_true, if_false] at heq
    rcases ih e n heq hlen with ⟨v, hv⟩ | ⟨hle, hok⟩
    · exact Option.noConfusion hv
    · refine Or.inr ⟨by omega, ?_⟩
      have hk : e.pos - pos = (e.pos - (pos + 3)) + 1 + 1 + 1 := by omega
      rw [hk, List.take_succ_cons, List.take_succ_cons, List.take_succ_cons, validateLoop.eq_def]
      simpa only [ne_eq, h1, h2, h3, h4, h5, h6, h7, h8, and_self, if_true, if_false] using hok
  | case19 b pos h1 h2 h3 h4 cont1 h5 cont2 rest2 h6 h7 h8 fst p =>
    intro e n heq hlen
    rw [validateLoop.eq_def] at heq
    simp only [ne_eq, h1, h2, h3, h4, h5, h6, h7, h8, if_true, if_false] at heq
    injection heq with h
    subst h
    exact Or.inl ⟨fst, rfl⟩
  | case20 b pos h1 h2 h3 h4 cont1 h5 cont2 rest2 h6 h7 h8 ih =>
    intro e n heq hlen
    rw [validateLoop.eq_def] at heq
    simp only [ne_eq, h1, h2, h3, h4, h5, h6, h7, h8, if_true, if_false] at heq
    rcases ih e n heq hlen with ⟨v, hv⟩ | ⟨hle, hok⟩
    · exact Option.noConfusion hv
    · refine Or.inr ⟨by omega, ?_⟩
      have hk : e.pos - pos = (e.pos - (pos + 3)) + 1 + 1 + 1 := by omega
      rw [hk, List.take_succ_cons, List.take_succ_cons, List.take_succ_cons, validateLoop.eq_def]
      simpa only [ne_eq, h1, h2, h3, h4, h5, h6, h7, h8, if_true, if_false] using hok
  | case21 b rest pos ps h1 h2 h3 h4 h5 =>
    intro e n heq hlen
    rw [validateLoop.eq_def] at heq
    simp only [ne_eq, h1, h2, h3, h4, h5, if_true, if_false] at heq
    injection heq with h
    subst h
    refine Or.inr ⟨Nat.le_refl _, ?_⟩
    simp only [Nat.sub_self, List.take_zero]
    rfl
  | case22 b rest pos h1 h2 h3 h4 h5 fst p =>
    intro e n heq hlen
    rw [validateLoop.eq_def] at heq
    simp only [ne_eq, h1, h2, h3, h4, h5, if_true, if_false] at heq
    injection heq with h
    subst h
    exact Or.inl ⟨fst, rfl⟩
  | case23 b rest pos h1 h2 h3 h4 h5 ih =>
    intro e n heq hlen
    rw [validateLoop.eq_def] at heq
    simp only [ne_eq, h1, h2, h3, h4, h5, if_true, if_false] at heq
    rcases ih e n heq hlen with ⟨v, hv⟩ | ⟨hle, hok⟩
    · exact Option.noConfusion hv
    · refine Or.inr ⟨by omega, ?_⟩
      have hk : e.pos - pos = (e.pos - (pos + 1)) + 1 := by omega
      rw [hk, List.take_succ_cons, validateLoop.eq_def]
      simpa only [ne_eq, h1, h2, h3, h4, h5, if_true, if_false] using hok

/-- C7 counterexample: on `[0xC0]` (a 2-byte lead with the buffer ending before
its continuation byte) the validator reports the truncation error
`pos = 1, len = none`, and the prefix of length `valid_up_to = 1` is `[0xC0]`
itself, which the validator rejects; so the claim as stated is false. -/
theorem c7_counterexample :
    ¬ (∀ (e : ModifiedUtf8Error), validate_modified_utf8 [0xC0] = .error e →
        validate_modified_utf8 (List.take e.valid_up_to [0xC0]) = .ok ()) := by
  intro h
  have h2 := h ⟨1, none⟩ rfl
  have h3 : (Except.error ⟨1, none⟩ : Except ModifiedUtf8Error Unit) = .ok () := h2
  exact Except.noConfusion h3

/-- C7 (amended): whenever the validator returns an error with a known
erroneous-sequence length (`error_len = some n`), the prefix of the input of
length `valid_up_to` is itself accepted by the validator.  For truncation
errors (`error_len = none`) the recorded position points at the truncation
inside the incomplete sequence, and the prefix of that length can be invalid. -/
theorem c7_valid_up_to_sound (l : List Nat) (e : ModifiedUtf8Error) (n : Nat)
    (herr : validate_modified_utf8 l = .error e) (hlen : e.error_len = some n) :
    validate_modified_utf8 (List.take e.valid_up_to l) = .ok () := by
  rcases validateLoop_take_ok l 0 none e n herr hlen with ⟨v, hv⟩ | ⟨hle, hok⟩
  · exact Option.noConfusion hv
  · simpa [validate_modified_utf8, ModifiedUtf8Error.valid_up_to] using hok

/-- Witness for C7 at the concrete buffer `[0x41, 0x00]`: the validator rejects
it with `pos = 1, len = some 1`, and the length-1 prefix `[0x41]` is
accepted. -/
theorem c7_valid_up_to_sound_witness :
    validate_modified_utf8
      (List.take (ModifiedUtf8Error.valid_up_to ⟨1, some 1⟩) [0x41, 0x00]) = .ok () :=
  c7_valid_up_to_sound [0x41, 0x00] ⟨1, some 1⟩ 1 rfl rfl

/-- Bitwise or of a multiple of `2 ^ k` with a value below `2 ^ k` is their sum. -/
theorem two_pow_mul_lor_eq_add (m : Nat) {k b : Nat} (hb : b < 2 ^ k) :
    (2 ^ k * m) ||| b = 2 ^ k * m + b := by
  apply Nat.eq_of_testBit_eq
  intro i
  rw [Nat.testBit_or, Nat.testBit_mul_pow_two_add m hb i, Nat.testBit_mul_pow_two]
  by_cases hi : i < k
  · simp [hi, Nat.not_le_of_lt hi]
  · have hbi : b.testBit i = false :=
      Nat.testBit_lt_two_pow (Nat.lt_of_lt_of_le hb (Nat.pow_le_pow_right (by omega) (by omega)))
    simp [hi, Nat.le_of_not_lt hi, hbi]

/-- Bitwise or of disjoint operands is addition: `a` is a multiple of `n = 2 ^ k`
and `b` lies below `n`. -/
theorem lor_eq_add_of_lt {a b n : Nat} (k : Nat) (hk : 2 ^ k = n) (ha : a % n = 0)
    (hb : b < n) : a ||| b = a + b := by
  subst hk
  obtain ⟨m, rfl⟩ := Nat.dvd_of_mod_eq_zero ha
  exact two_pow_mul_lor_eq_add m hb

/-- Classification facts about an ASCII byte under the validator conditions. -/
theorem byte_ascii_facts : ∀ z < 0x80,
    ¬(z &&& 0xc0 = 0x80) ∧ ¬(z &&& 0xe0 = 0xc0) ∧ ¬(z &&& 0xf0 = 0xe0) ∧
    ¬(z &&& 0xf0 = 0xf0) := by decide

/-- Classification facts about a 2-byte lead `0xc0 + z`. -/
theorem byte_c0_facts : ∀ z < 32,
    ¬(0xc0 + z = 0) ∧ ¬((0xc0 + z) &&& 0xc0 = 0x80) ∧ ((0xc0 + z) &&& 0xe0 = 0xc0) ∧
    ((0xc0 + z) &&& 0x1f = z) ∧ ¬(0xc0 + z < 0x80) := by decide

/-- Classification facts about a continuation byte `0x80 + z`. -/
theorem byte_80_facts : ∀ z < 64,
    ((0x80 + z) &&& 0xc0 = 0x80) ∧ ((0x80 + z) &&& 0x3f = z) ∧ ¬(0x80 + z = 0) := by decide

/-- Classification facts about a 3-byte lead `0xe0 + z`. -/
theorem byte_e0_facts : ∀ z < 16,
    ¬(0xe0 + z = 0) ∧ ¬((0xe0 + z) &&& 0xc0 = 0x80) ∧ ¬((0xe0 + z) &&& 0xe0 = 0xc0) ∧
    ((0xe0 + z) &&& 0xf0 = 0xe0) ∧ ((0xe0 + z) &&& 0xf = z) ∧ ¬(0xe0 + z < 0x80) := by decide

/-- Mask by `0x3f` is reduction modulo 64. -/
theorem nat_and_63 (x : Nat) : x &&& 63 = x % 64 := Nat.and_pow_two_sub_one_eq_mod x 6

/-- The validator scans the 1-byte UTF-8 encoding of a nonzero ASCII scalar and
moves on with no pending pairing. -/
theorem validate_step1 (c : Nat) (h0 : c ≠ 0) (h1 : c < 0x80) (rest : List Nat) (pos : Nat) :
    validateLoop (utf8EncodeChar c ++ rest) pos none = validateLoop rest (pos + 1) none := by
  obtain ⟨a1, a2, a3, a4⟩ := byte_ascii_facts c h1
  have henc : utf8EncodeChar c = [c] := by simp only [utf8EncodeChar, h1, if_true]
  rw [henc, List.cons_append, List.nil_append, validateLoop.eq_def]
  simp only [h0, a1, a2, a3, a4, if_true, if_false]

/-- The validator scans the 2-byte UTF-8 encoding of a scalar in
`[0x80, 0x800)` and moves on with no pending pairing. -/
theorem validate_step2 (c : Nat) (h1 : 0x80 ≤ c) (h2 : c < 0x800) (rest : List Nat) (pos : Nat) :
    validateLoop (utf8EncodeChar c ++ rest) pos none = validateLoop rest (pos + 2) none := by
  have hc0 : ¬ c < 0x80 := by omega
  have hsr : c >>> 6 = c / 64 := by rw [Nat.shiftRight_eq_div_pow]
  have hb0 : 0xc0 ||| (c >>> 6) = 0xc0 + c / 64 := by
    rw [hsr]; exact lor_eq_add_of_lt 5 rfl (by decide) (by omega)
  have hb1 : 0x80 ||| (c &&& 0x3f) = 0x80 + c % 64 := by
    rw [nat_and_63]; exact lor_eq_add_of_lt 6 rfl (by decide) (by omega)
  obtain ⟨c1, c2, c3, c4, c5⟩ := byte_c0_facts (c / 64) (by omega)
  obtain ⟨m1, m2, m3⟩ := byte_80_facts (c % 64) (by omega)
  have henc : utf8EncodeChar c = [0xc0 + c / 64, 0x80 + c % 64] := by
    simp only [utf8EncodeChar, hc0, h2, if_true, if_false]
    rw [hb0, hb1]
  rw [henc, List.cons_append, List.cons_append, List.nil_append, validateLoop.eq_def]
  simp only [ne_eq, c1, c2, c3, m1, not_false_eq_true, not_true_eq_false, if_true, if_false]

/-- The validator scans the 3-byte UTF-8 encoding of a non-surrogate scalar in
`[0x800, 0x10000)` and moves on with no pending pairing. -/
theorem validate_step3 (c : Nat) (h1 : 0x800 ≤ c) (h2 : c < 0x10000)
    (h3 : ¬(0xd800 ≤ c ∧ c ≤ 0xdfff)) (rest : List Nat) (pos : Nat) :
    validateLoop (utf8EncodeChar c ++ rest) pos none = validateLoop rest (pos + 3) none := by
  have hc0 : ¬ c < 0x80 := by omega
  have hc1 : ¬ c < 0x800 := by omega
  have hsr12 : c >>> 12 = c / 4096 := by rw [Nat.shiftRight_eq_div_pow]
  have hsr6 : c >>> 6 = c / 64 := by rw [Nat.shiftRight_eq_div_pow]
  have hb0 : 0xe0 ||| (c >>> 12) = 0xe0 + c / 4096 := by
    rw [hsr12]; exact lor_eq_add_of_lt 4 rfl (by decide) (by omega)
  have hb1 : 0x80 ||| ((c >>> 6) &&& 0x3f) = 0x80 + c / 64 % 64 := by
    rw [hsr6, nat_and_63]; exact lor_eq_add_of_lt 6 rfl (by decide) (by omega)
  have hb2 : 0x80 ||| (c &&& 0x3f) = 0x80 + c % 64 := by
    rw [nat_and_63]; exact lor_eq_add_of_lt 6 rfl (by decide) (by omega)
  obtain ⟨e1, e2, e3, e4, e5, e6⟩ := byte_e0_facts (c / 4096) (by omega)
  obtain ⟨m1a, m1b, m1c⟩ := byte_80_facts (c / 64 % 64) (by omega)
  obtain ⟨m2a, m2b, m2c⟩ := byte_80_facts (c % 64) (by omega)
  have hval : mutf8Val (0xe0 + c / 4096) (0x80 + c / 64 % 64) (0x80 + c % 64) = c := by
    unfold mutf8Val
    rw [e5, m1b, m2b, Nat.shiftLeft_eq, Nat.shiftLeft_eq]
    rw [lor_eq_add_of_lt 12 rfl (Nat.mul_mod_left _ _) (by omega)]
    rw [lor_eq_add_of_lt 6 rfl (by omega) (by omega)]
    omega
  have hr1 : ¬(0xd800 ≤ mutf8Val (0xe0 + c / 4096) (0x80 + c / 64 % 64) (0x80 + c % 64) ∧
      mutf8Val (0xe0 + c / 4096) (0x80 + c / 64 % 64) (0x80 + c % 64) ≤ 0xdbff) := by
    rw [hval]; omega
  have hr2 : ¬(0xdc00 ≤ mutf8Val (0xe0 + c / 4096) (0x80 + c / 64 % 64) (0x80 + c % 64) ∧
      mutf8Val (0xe0 + c / 4096) (0x80 + c / 64 % 64) (0x80 + c % 64) ≤ 0xdfff) := by
    rw [hval]; omega
  have henc : utf8EncodeChar c = [0xe0 + c / 4096, 0x80 + c / 64 % 64, 0x80 + c % 64] := by
    simp only [utf8EncodeChar, hc0, hc1, h2, if_true, if_false]
    rw [hb0, hb1, hb2]
  rw [henc, List.cons_append, List.cons_append, List.cons_append, List.nil_append,
    validateLoop.eq_def]
  simp only [ne_eq, e1, e2, e3, e4, m1a, m2a, hr1, hr2, not_false_eq_true, not_true_eq_false,
    if_true, if_false]

/-- The validator accepts the UTF-8 bytes of any string whose scalars are
nonzero, below 0x10000 and not surrogates. -/
theorem validate_encode_ok (s : List Nat)
    (h : ∀ c ∈ s, c ≠ 0 ∧ c < 0x10000 ∧ ¬(0xd800 ≤ c ∧ c ≤ 0xdfff)) :
    ∀ pos, validateLoop (utf8Encode s) pos none = .ok () := by
  induction s with
  | nil => intro pos; rfl
  | cons c s ih =>
    intro pos
    obtain ⟨hc0, hc1, hc2⟩ := h c (List.mem_cons_self c s)
    have hrest : ∀ x ∈ s, x ≠ 0 ∧ x < 0x10000 ∧ ¬(0xd800 ≤ x ∧ x ≤ 0xdfff) :=
      fun x hx => h x (List.mem_cons_of_mem c hx)
    have hstep : utf8Encode (c :: s) = utf8EncodeChar c ++ utf8Encode s := by
      simp [utf8Encode]
    rw [hstep]
    rcases Nat.lt_or_ge c 0x80 with hr | hr
    · rw [validate_step1 c hc0 hr]
      exact ih hrest _
    rcases Nat.lt_or_ge c 0x800 with hr2 | hr2
    · rw [validate_step2 c hr hr2]
      exact ih hrest _
    · rw [validate_step3 c hr2 hc1 hc2]
      exact ih hrest _


/-- The standard UTF-8 decoder consumes the 1-byte encoding of an ASCII scalar. -/
theorem decode_step1 (c : Nat) (h1 : c < 0x80) (rest acc : List Nat) :
    utf8DecodeLoop (utf8EncodeChar c ++ rest) acc = utf8DecodeLoop rest (c :: acc) := by
  have henc : utf8EncodeChar c = [c] := by simp only [utf8EncodeChar, h1, if_true]
  rw [henc, List.cons_append, List.nil_append, utf8DecodeLoop.eq_def]
  simp only [h1, if_true]

/-- The standard UTF-8 decoder consumes the 2-byte encoding of a scalar in
`[0x80, 0x800)`. -/
theorem decode_step2 (c : Nat) (h1 : 0x80 ≤ c) (h2 : c < 0x800) (rest acc : List Nat) :
    utf8DecodeLoop (utf8EncodeChar c ++ rest) acc = utf8DecodeLoop rest (c :: acc) := by
  have hc0 : ¬ c < 0x80 := by omega
  have hsr : c >>> 6 = c / 64 := by rw [Nat.shiftRight_eq_div_pow]
  have hb0 : 0xc0 ||| (c >>> 6) = 0xc0 + c / 64 := by
    rw [hsr]; exact lor_eq_add_of_lt 5 rfl (by decide) (by omega)
  have hb1 : 0x80 ||| (c &&& 0x3f) = 0x80 + c % 64 := by
    rw [nat_and_63]; exact lor_eq_add_of_lt 6 rfl (by decide) (by omega)
  obtain ⟨c1, c2, c3, c4, c5⟩ := byte_c0_facts (c / 64) (by omega)
  obtain ⟨m1, m2, m3⟩ := byte_80_facts (c % 64) (by omega)
  have hvalv : utf8Val2 (0xc0 + c / 64) (0x80 + c % 64) = c := by
    unfold utf8Val2
    rw [c4, m2, Nat.shiftLeft_eq]
    rw [lor_eq_add_of_lt 6 rfl (Nat.mul_mod_left _ _) (by omega)]
    omega
  have hge : 0x80 ≤ utf8Val2 (0xc0 + c / 64) (0x80 + c % 64) := by rw [hvalv]; omega
  have henc : utf8EncodeChar c = [0xc0 + c / 64, 0x80 + c % 64] := by
    simp only [utf8EncodeChar, hc0, h2, if_true, if_false]
    rw [hb0, hb1]
  rw [henc, List.cons_append, List.cons_append, List.nil_append, utf8DecodeLoop.eq_def]
  simp only [c3, c5, m1, hge, if_true, if_false]
  rw [hvalv]

/-- The standard UTF-8 decoder consumes the 3-byte encoding of a non-surrogate
scalar in `[0x800, 0x10000)`. -/
theorem decode_step3 (c : Nat) (h1 : 0x800 ≤ c) (h2 : c < 0x10000)
    (h3 : ¬(0xd800 ≤ c ∧ c ≤ 0xdfff)) (rest acc : List Nat) :
    utf8DecodeLoop (utf8EncodeChar c ++ rest) acc = utf8DecodeLoop rest (c :: acc) := by
  have hc0 : ¬ c < 0x80 := by omega
  have hc1 : ¬ c < 0x800 := by omega
  have hsr12 : c >>> 12 = c / 4096 := by rw [Nat.shiftRight_eq_div_pow]
  have hsr6 : c >>> 6 = c / 64 := by rw [Nat.shiftRight_eq_div_pow]
  have hb0 : 0xe0 ||| (c >>> 12) = 0xe0 + c / 4096 := by
    rw [hsr12]; exact lor_eq_add_of_lt 4 rfl (by decide) (by omega)
  have hb1 : 0x80 ||| ((c >>> 6) &&& 0x3f) = 0x80 + c / 64 % 64 := by
    rw [hsr6, nat_and_63]; exact lor_eq_add_of_lt 6 rfl (by decide) (by omega)
  have hb2 : 0x80 ||| (c &&& 0x3f) = 0x80 + c % 64 := by
    rw [nat_and_63]; exact lor_eq_add_of_lt 6 rfl (by decide) (by omega)
  obtain ⟨e1, e2, e3, e4, e5, e6⟩ := byte_e0_facts (c / 4096) (by omega)
  obtain ⟨m1a, m1b, m1c⟩ := byte_80_facts (c / 64 % 64) (by omega)
  obtain ⟨m2a, m2b, m2c⟩ := byte_80_facts (c % 64) (by omega)
  have hval : utf8Val3 (0xe0 + c / 4096) (0x80 + c / 64 % 64) (0x80 + c % 64) = c := by
    unfold utf8Val3
    rw [e5, m1b, m2b, Nat.shiftLeft_eq, Nat.shiftLeft_eq]
    rw [lor_eq_add_of_lt 12 rfl (Nat.mul_mod_left _ _) (by omega)]
    rw [lor_eq_add_of_lt 6 rfl (by omega) (by omega)]
    omega
  have hcond : 0x800 ≤ utf8Val3 (0xe0 + c / 4096) (0x80 + c / 64 % 64) (0x80 + c % 64) ∧
      (char_from_u32 (utf8Val3 (0xe0 + c / 4096) (0x80 + c / 64 % 64) (0x80 + c % 64))).isSome := by
    rw [hval]
    refine ⟨h1, ?_⟩
    unfold char_from_u32
    rw [if_pos ⟨by omega, h3⟩]
    rfl
  have henc : utf8EncodeChar c = [0xe0 + c / 4096, 0x80 + c / 64 % 64, 0x80 + c % 64] := by
    simp only [utf8EncodeChar, hc0, hc1, h2, if_true, if_false]
    rw [hb0, hb1, hb2]
  rw [henc, List.cons_append, List.cons_append, List.cons_append, List.nil_append,
    utf8DecodeLoop.eq_def]
  simp only [e3, e4, e6, m1a, m2a, hcond, and_self, if_true, if_false]
  rw [hval]

/-- The standard UTF-8 decode loop recovers the scalars of an encoded string
in front of whatever was accumulated. -/
theorem utf8DecodeLoop_encode (s : List Nat)
    (h : ∀ c ∈ s, c ≠ 0 ∧ c < 0x10000 ∧ ¬(0xd800 ≤ c ∧ c ≤ 0xdfff)) :
    ∀ acc, utf8DecodeLoop (utf8Encode s) acc = some (acc.reverse ++ s) := by
  induction s with
  | nil => intro acc; simp [utf8Encode, utf8DecodeLoop]
  | cons c s ih =>
    intro acc
    obtain ⟨hc0, hc1, hc2⟩ := h c (List.mem_cons_self c s)
    have hrest : ∀ x ∈ s, x ≠ 0 ∧ x < 0x10000 ∧ ¬(0xd800 ≤ x ∧ x ≤ 0xdfff) :=
      fun x hx => h x (List.mem_cons_of_mem c hx)
    have hstep : utf8Encode (c :: s) = utf8EncodeChar c ++ utf8Encode s := by
      simp [utf8Encode]
    rw [hstep]
    have hfin : utf8DecodeLoop (utf8Encode s) (c :: acc) = some ((c :: acc).reverse ++ s) :=
      ih hrest (c :: acc)
    have hres : ((c :: acc).reverse ++ s) = acc.reverse ++ (c :: s) := by
      simp
    rcases Nat.lt_or_ge c 0x80 with hr | hr
    · rw [decode_step1 c hr, hfin, hres]
    rcases Nat.lt_or_ge c 0x800 with hr2 | hr2
    · rw [decode_step2 c hr hr2, hfin, hres]
    · rw [decode_step3 c hr2 hc1 hc2, hfin, hres]

/-- Standard UTF-8 decoding is a left inverse of encoding on strings of
nonzero, sub-0x10000, non-surrogate scalars. -/
theorem utf8DecodeAll_encode (s : List Nat)
    (h : ∀ c ∈ s, c ≠ 0 ∧ c < 0x10000 ∧ ¬(0xd800 ≤ c ∧ c ≤ 0xdfff)) :
    utf8DecodeAll (utf8Encode s) = some s := by
  unfold utf8DecodeAll
  rw [utf8DecodeLoop_encode s h []]
  rfl

/-- C9: for every standard-Unicode string with no embedded NUL and no scalar
above U+FFFF, `from_utf8_str` succeeds with the `Cow::Borrowed` result over
exactly the UTF-8 bytes of the input (no byte rewritten), and `into_str` on
those bytes takes its borrowed branch and yields back exactly the input
string. -/
theorem c9_round_trip (s : List Nat)
    (h : ∀ c ∈ s, c ≠ 0 ∧ c < 0x10000 ∧ ¬(0xd800 ≤ c ∧ c ≤ 0xdfff)) (fuel : Nat) :
    JStr.from_utf8_str fuel s = some (true, utf8Encode s) ∧
    JStr.into_str (utf8Encode s) = some s := by
  constructor
  · unfold JStr.from_utf8_str
    rw [validate_encode_ok s h 0]
  · unfold JStr.into_str
    exact utf8DecodeAll_encode s h

/-- Witness for C9 at the concrete two-scalar string `A` + Euro sign
(U+0041, U+20AC). -/
theorem c9_round_trip_witness :
    JStr.from_utf8_str 0 [0x41, 0x20AC] = some (true, utf8Encode [0x41, 0x20AC]) ∧
    JStr.into_str (utf8Encode [0x41, 0x20AC]) = some [0x41, 0x20AC] :=
  c9_round_trip [0x41, 0x20AC] (by decide) 0

/-- A byte agreeing with a mask that has bit 7 set has the same bit 7 as the
masked value. -/
theorem land_assoc_mask (b mask v : Nat) (hm : mask &&& 0x80 = 0x80) (h : b &&& mask = v) :
    b &&& 0x80 = v &&& 0x80 := by
  calc b &&& 0x80 = b &&& (mask &&& 0x80) := by rw [hm]
    _ = b &&& mask &&& 0x80 := (Nat.land_assoc b mask 0x80).symm
    _ = v &&& 0x80 := by rw [h]

/-- Helper for C10: mapping a byte-wise function over the buffer commutes with
validation whenever the function preserves the five classification tests of
the scan and fixes every byte with the top bit set (so every byte of any
multi-byte sequence is untouched). -/
theorem validateLoop_map (f : Nat → Nat)
    (hf0 : ∀ b, f b = 0 ↔ b = 0)
    (hf1 : ∀ b, f b &&& 0xc0 = 0x80 ↔ b &&& 0xc0 = 0x80)
    (hf2 : ∀ b, f b &&& 0xe0 = 0xc0 ↔ b &&& 0xe0 = 0xc0)
    (hf3 : ∀ b, f b &&& 0xf0 = 0xe0 ↔ b &&& 0xf0 = 0xe0)
    (hf4 : ∀ b, f b &&& 0xf0 = 0xf0 ↔ b &&& 0xf0 = 0xf0)
    (hfix : ∀ b, b &&& 0x80 = 0x80 → f b = b) :
    ∀ (l : List Nat) (pos : Nat) (ps : Option (Nat × Nat)),
      validateLoop (l.map f) pos ps = validateLoop l pos ps := by
  intro l pos ps
  induction l, pos, ps using validateLoop.induct with
  | case1 pos ps => rfl
  | case2 rest pos fst p =>
    have g0 : f 0 = 0 := (hf0 0).mpr rfl
    simp only [List.map_cons]
    rw [validateLoop.eq_def, validateLoop.eq_def]
    simp only [g0, if_true]
  | case3 rest pos =>
    have g0 : f 0 = 0 := (hf0 0).mpr rfl
    simp only [List.map_cons]
    rw [validateLoop.eq_def, validateLoop.eq_def]
    simp only [g0, if_true]
  | case4 b rest pos h1 h2 fst p =>
    have g1 : ¬(f b = 0) := fun hx => h1 ((hf0 b).mp hx)
    have g2 : f b &&& 0xc0 = 0x80 := (hf1 b).mpr h2
    simp only [List.map_cons]
    rw [validateLoop.eq_def, validateLoop.eq_def]
    simp only [h1, h2, g1, g2, if_true, if_false]
  | case5 b rest pos h1 h2 =>
    have g1 : ¬(f b = 0) := fun hx => h1 ((hf0 b).mp hx)
    have g2 : f b &&& 0xc0 = 0x80 := (hf1 b).mpr h2
    simp only [List.map_cons]
    rw [validateLoop.eq_def, validateLoop.eq_def]
    simp only [h1, h2, g1, g2, if_true, if_false]
  | case6 b rest pos h1 h2 h3 fst p =>
    have g1 : ¬(f b = 0) := fun hx => h1 ((hf0 b).mp hx)
    have g2 : ¬(f b &&& 0xc0 = 0x80) := fun hx => h2 ((hf1 b).mp hx)
    have g3 : f b &&& 0xe0 = 0xc0 := (hf2 b).mpr h3
    simp only [List.map_cons]
    rw [validateLoop.eq_def, validateLoop.eq_def]
    simp only [h1, h2, h3, g1, g2, g3, if_true, if_false]
  | case7 b pos h1 h2 h3 =>
    have g1 : ¬(f b = 0) := fun hx => h1 ((hf0 b).mp hx)
    have g2 : ¬(f b &&& 0xc0 = 0x80) := fun hx => h2 ((hf1 b).mp hx)
    have g3 : f b &&& 0xe0 = 0xc0 := (hf2 b).mpr h3
    simp only [List.map_cons, List.map_nil]
    rw [validateLoop.eq_def, validateLoop.eq_def]
    simp only [h1, h2, h3, g1, g2, g3, if_true, if_false]
  | case8 b pos h1 h2 h3 cont rest2 h4 =>
    have g1 : ¬(f b = 0) := fun hx => h1 ((hf0 b).mp hx)
    have g2 : ¬(f b &&& 0xc0 = 0x80) := fun hx => h2 ((hf1 b).mp hx)
    have g3 : f b &&& 0xe0 = 0xc0 := (hf2 b).mpr h3
    have g4 : ¬(f cont &&& 0xc0 = 0x80) := fun hx => h4 ((hf1 cont).mp hx)
    simp only [List.map_cons]
    rw [validateLoop.eq_def, validateLoop.eq_def]
    simp only [ne_eq, h1, h2, h3, h4, g1, g2, g3, g4, not_false_eq_true, if_true, if_false]
  | case9 b pos h1 h2 h3 cont rest2 h4 ih =>
    have h4p : cont &&& 0xc0 = 0x80 := Decidable.not_not.mp h4
    have g1 : ¬(f b = 0) := fun hx => h1 ((hf0 b).mp hx)
    have g2 : ¬(f b &&& 0xc0 = 0x80) := fun hx => h2 ((hf1 b).mp hx)
    have g3 : f b &&& 0xe0 = 0xc0 := (hf2 b).mpr h3
    have g4 : f cont &&& 0xc0 = 0x80 := (hf1 cont).mpr h4p
    simp only [List.map_cons]
    rw [validateLoop.eq_def, validateLoop.eq_def]
    simp only [ne_eq, h4p, g4, not_true_eq_false, h1, h2, h3, g1, g2, g3, if_true, if_false]
    exact ih
  | case10 b pos ps h1 h2 h3 h4 =>
    have g1 : ¬(f b = 0) := fun hx => h1 ((hf0 b).mp hx)
    have g2 : ¬(f b &&& 0xc0 = 0x80) := fun hx => h2 ((hf1 b).mp hx)
    have g3 : ¬(f b &&& 0xe0 = 0xc0) := fun hx => h3 ((hf2 b).mp hx)
    have g4 : f b &&& 0xf0 = 0xe0 := (hf3 b).mpr h4
    simp only [List.map_cons, List.map_nil]
    rw [validateLoop.eq_def, validateLoop.eq_def]
    simp only [h1, h2, h3, h4, g1, g2, g3, g4, if_true, if_false]
  | case11 b pos ps h1 h2 h3 h4 cont rest2 h5 =>
    have g1 : ¬(f b = 0) := fun hx => h1 ((hf0 b).mp hx)
    have g2 : ¬(f b &&& 0xc0 = 0x80) := fun hx => h2 ((hf1 b).mp hx)
    have g3 : ¬(f b &&& 0xe0 = 0xc0) := fun hx => h3 ((hf2 b).mp hx)
    have g4 : f b &&& 0xf0 = 0xe0 := (hf3 b).mpr h4
    have g5 : ¬(f cont &&& 0xc0 = 0x80) := fun hx => h5 ((hf1 cont).mp hx)
    simp only [List.map_cons]
    rw [validateLoop.eq_def, validateLoop.eq_def]
    simp only [ne_eq, h1, h2, h3, h4, h5, g1, g2, g3, g4, g5, not_false_eq_true, if_true,
      if_false]
  | case12 b pos ps h1 h2 h3 h4 cont h5 =>
    have h5p : cont &&& 0xc0 = 0x80 := Decidable.not_not.mp h5
    have g1 : ¬(f b = 0) := fun hx => h1 ((hf0 b).mp hx)
    have g2 : ¬(f b &&& 0xc0 = 0x80) := fun hx => h2 ((hf1 b).mp hx)
    have g3 : ¬(f b &&& 0xe0 = 0xc0) := fun hx => h3 ((hf2 b).mp hx)
    have g4 : f b &&& 0xf0 = 0xe0 := (hf3 b).mpr h4
    have g5 : f cont &&& 0xc0 = 0x80 := (hf1 cont).mpr h5p
    simp only [List.map_cons, List.map_nil]
    rw [validateLoop.eq_def, validateLoop.eq_def]
    simp only [ne_eq, h5p, g5, not_true_eq_false, h1, h2, h3, h4, g1, g2, g3, g4, if_true,
      if_false]
  | case13 b pos ps h1 h2 h3 h4 cont1 h5 cont2 rest2 h6 =>
    have h5p : cont1 &&& 0xc0 = 0x80 := Decidable.not_not.mp h5
    have g1 : ¬(f b = 0) := fun hx => h1 ((hf0 b).mp hx)
    have g2 : ¬(f b &&& 0xc0 = 0x80) := fun hx => h2 ((hf1 b).mp hx)
    have g3 : ¬(f b &&& 0xe0 = 0xc0) := fun hx => h3 ((hf2 b).mp hx)
    have g4 : f b &&& 0xf0 = 0xe0 := (hf3 b).mpr h4
    have g5 : f cont1 &&& 0xc0 = 0x80 := (hf1 cont1).mpr h5p
    have g6 : ¬(f cont2 &&& 0xc0 = 0x80) := fun hx => h6 ((hf1 cont2).mp hx)
    simp only [List.map_cons]
    rw [validateLoop.eq_def, validateLoop.eq_def]
    simp only [ne_eq, h5p, g5, not_true_eq_false, h6, g6, not_false_eq_true, h1, h2, h3, h4,
      g1, g2, g3, g4, if_true, if_false]
  | case14 b pos h1 h2 h3 h4 cont1 h5 cont2 rest2 h6 hval fst p =>
    have h5p : cont1 &&& 0xc0 = 0x80 := Decidable.not_not.mp h5
    have h6p : cont2 &&& 0xc0 = 0x80 := Decidable.not_not.mp h6
    have hbfix : f b = b := hfix b (land_assoc_mask b 0xf0 0xe0 rfl h4)
    have hc1fix : f cont1 = cont1 := hfix cont1 (land_assoc_mask cont1 0xc0 0x80 rfl h5p)
    have hc2fix : f cont2 = cont2 := hfix cont2 (land_assoc_mask cont2 0xc0 0x80 rfl h6p)
    simp only [List.map_cons, hbfix, hc1fix, hc2fix]
    rw [validateLoop.eq_def, validateLoop.eq_def]
    simp only [ne_eq, h5p, h6p, not_true_eq_false, h1, h2, h3, h4, hval, and_self, if_true,
      if_false]
  | case15 b pos h1 h2 h3 h4 cont1 h5 cont2 rest2 h6 hval ih =>
    have h5p : cont1 &&& 0xc0 = 0x80 := Decidable.not_not.mp h5
    have h6p : cont2 &&& 0xc0 = 0x80 := Decidable.not_not.mp h6
    have hbfix : f b = b := hfix b (land_assoc_mask b 0xf0 0xe0 rfl h4)
    have hc1fix : f cont1 = cont1 := hfix cont1 (land_assoc_mask cont1 0xc0 0x80 rfl h5p)
    have hc2fix : f cont2 = cont2 := hfix cont2 (land_assoc_mask cont2 0xc0 0x80 rfl h6p)
    simp only [List.map_cons, hbfix, hc1fix, hc2fix]
    rw [validateLoop.eq_def, validateLoop.eq_def]
    simp only [ne_eq, h5p, h6p, not_true_eq_false, h1, h2, h3, h4, hval, and_self, if_true,
      if_false]
    exact ih
  | case16 b pos h1 h2 h3 h4 cont1 h5 cont2 rest2 h6 h7 h8 fst p h9 =>
    have h5p : cont1 &&& 0xc0 = 0x80 := Decidable.not_not.mp h5
    have h6p : cont2 &&& 0xc0 = 0x80 := Decidable.not_not.mp h6
    have hbfix : f b = b := hfix b (land_assoc_mask b 0xf0 0xe0 rfl h4)
    have hc1fix : f cont1 = cont1 := hfix cont1 (land_assoc_mask cont1 0xc0 0x80 rfl h5p)
    have hc2fix : f cont2 = cont2 := hfix cont2 (land_assoc_mask cont2 0xc0 0x80 rfl h6p)
    simp only [List.map_cons, hbfix, hc1fix, hc2fix]
    rw [validateLoop.eq_def, validateLoop.eq_def]
    simp only [ne_eq, h5p, h6p, not_true_eq_false, h1, h2, h3, h4, h7, h8, h9, and_self,
      if_true, if_false]
  | case17 b pos h1 h2 h3 h4 cont1 h5 cont2 rest2 h6 h7 h8 fst p h9 ih =>
    have h5p : cont1 &&& 0xc0 = 0x80 := Decidable.not_not.mp h5
    have h6p : cont2 &&& 0xc0 = 0x80 := Decidable.not_not.mp h6
    have hbfix : f b = b := hfix b (land_assoc_mask b 0xf0 0xe0 rfl h4)
    have hc1fix : f cont1 = cont1 := hfix cont1 (land_assoc_mask cont1 0xc0 0x80 rfl h5p)
    have hc2fix : f cont2 = cont2 := hfix cont2 (land_assoc_mask cont2 0xc0 0x80 rfl h6p)
    simp only [List.map_cons, hbfix, hc1fix, hc2fix]
    rw [validateLoop.eq_def, validateLoop.eq_def]
    simp only [ne_eq, h5p, h6p, not_true_eq_false, h1, h2, h3, h4, h7, h8, h9, and_self,
      if_true, if_false]
    exact ih
  | case18 b pos h1 h2 h3 h4 cont1 h5 cont2 rest2 h6 h7 h8 ih =>
    have h5p : cont1 &&& 0xc0 = 0x80 := Decidable.not_not.mp h5
    have h6p : cont2 &&& 0xc0 = 0x80 := Decidable.not_not.mp h6
    have hbfix : f b = b := hfix b (land_assoc_mask b 0xf0 0xe0 rfl h4)
    have hc1fix : f cont1 = cont1 := hfix cont1 (land_assoc_mask cont1 0xc0 0x80 rfl h5p)
    have hc2fix : f cont2 = cont2 := hfix cont2 (land_assoc_mask cont2 0xc0 0x80 rfl h6p)
    simp only [List.map_cons, hbfix, hc1fix, hc2fix]
    rw [validateLoop.eq_def, validateLoop.eq_def]
    simp only [ne_eq, h5p, h6p, not_true_eq_false, h1, h2, h3, h4, h7, h8, and_self, if_true,
      if_false]
    exact ih
  | case19 b pos h1 h2 h3 h4 cont1 h5 cont2 rest2 h6 h7 h8 fst p =>
    have h5p : cont1 &&& 0xc0 = 0x80 := Decidable.not_not.mp h5
    have h6p : cont2 &&& 0xc0 = 0x80 := Decidable.not_not.mp h6
    have hbfix : f b = b := hfix b (land_assoc_mask b 0xf0 0xe0 rfl h4)
    have hc1fix : f cont1 = cont1 := hfix cont1 (land_assoc_mask cont1 0xc0 0x80 rfl h5p)
    have hc2fix : f cont2 = cont2 := hfix cont2 (land_assoc_mask cont2 0xc0 0x80 rfl h6p)
    simp only [List.map_cons, hbfix, hc1fix, hc2fix]
    rw [validateLoop.eq_def, validateLoop.eq_def]
    simp only [ne_eq, h5p, h6p, not_true_eq_false, h1, h2, h3, h4, h7, h8, if_true, if_false]
  | case20 b pos h1 h2 h3 h4 cont1 h5 cont2 rest2 h6 h7 h8 ih =>
    have h5p : cont1 &&& 0xc0 = 0x80 := Decidable.not_not.mp h5
    have h6p : cont2 &&& 0xc0 = 0x80 := Decidable.not_not.mp h6
    have hbfix : f b = b := hfix b (land_assoc_mask b 0xf0 0xe0 rfl h4)
    have hc1fix : f cont1 = cont1 := hfix cont1 (land_assoc_mask cont1 0xc0 0x80 rfl h5p)
    have hc2fix : f cont2 = cont2 := hfix cont2 (land_assoc_mask cont2 0xc0 0x80 rfl h6p)
    simp only [List.map_cons, hbfix, hc1fix, hc2fix]
    rw [validateLoop.eq_def, validateLoop.eq_def]
    simp only [ne_eq, h5p, h6p, not_true_eq_false, h1, h2, h3, h4, h7, h8, if_true, if_false]
    exact ih
  | case21 b rest pos ps h1 h2 h3 h4 h5 =>
    have g1 : ¬(f b = 0) := fun hx => h1 ((hf0 b).mp hx)
    have g2 : ¬(f b &&& 0xc0 = 0x80) := fun hx => h2 ((hf1 b).mp hx)
    have g3 : ¬(f b &&& 0xe0 = 0xc0) := fun hx => h3 ((hf2 b).mp hx)
    have g4 : ¬(f b &&& 0xf0 = 0xe0) := fun hx => h4 ((hf3 b).mp hx)
    have g5 : f b &&& 0xf0 = 0xf0 := (hf4 b).mpr h5
    have hlit : ¬(240 = 224) := by decide
    simp only [List.map_cons]
    rw [validateLoop.eq_def, validateLoop.eq_def]
    simp only [h1, h2, h3, h4, h5, g1, g2, g3, g4, g5, hlit, if_true, if_false]
  | case22 b rest pos h1 h2 h3 h4 h5 fst p =>
    have g1 : ¬(f b = 0) := fun hx => h1 ((hf0 b).mp hx)
    have g2 : ¬(f b &&& 0xc0 = 0x80) := fun hx => h2 ((hf1 b).mp hx)
    have g3 : ¬(f b &&& 0xe0 = 0xc0) := fun hx => h3 ((hf2 b).mp hx)
    have g4 : ¬(f b &&& 0xf0 = 0xe0) := fun hx => h4 ((hf3 b).mp hx)
    have g5 : ¬(f b &&& 0xf0 = 0xf0) := fun hx => h5 ((hf4 b).mp hx)
    simp only [List.map_cons]
    rw [validateLoop.eq_def, validateLoop.eq_def]
    simp only [h1, h2, h3, h4, h5, g1, g2, g3, g4, g5, if_true, if_false]
  | case23 b rest pos h1 h2 h3 h4 h5 ih =>
    have g1 : ¬(f b = 0) := fun hx => h1 ((hf0 b).mp hx)
    have g2 : ¬(f b &&& 0xc0 = 0x80) := fun hx => h2 ((hf1 b).mp hx)
    have g3 : ¬(f b &&& 0xe0 = 0xc0) := fun hx => h3 ((hf2 b).mp hx)
    have g4 : ¬(f b &&& 0xf0 = 0xe0) := fun hx => h4 ((hf3 b).mp hx)
    have g5 : ¬(f b &&& 0xf0 = 0xf0) := fun hx => h5 ((hf4 b).mp hx)
    simp only [List.map_cons]
    rw [validateLoop.eq_def, validateLoop.eq_def]
    simp only [h1, h2, h3, h4, h5, g1, g2, g3, g4, g5, if_true, if_false]
    exact ih

/-- Setting bit 0x20 on an ASCII uppercase letter preserves every
classification test of the scan. -/
theorem lower_letter_facts : ∀ z < 0x5b, 0x40 < z →
    ((z ||| 0x20 = 0) ↔ (z = 0)) ∧ ((z ||| 0x20) &&& 0xc0 = 0x80 ↔ z &&& 0xc0 = 0x80) ∧
    ((z ||| 0x20) &&& 0xe0 = 0xc0 ↔ z &&& 0xe0 = 0xc0) ∧
    ((z ||| 0x20) &&& 0xf0 = 0xe0 ↔ z &&& 0xf0 = 0xe0) ∧
    ((z ||| 0x20) &&& 0xf0 = 0xf0 ↔ z &&& 0xf0 = 0xf0) ∧ ¬(z &&& 0x80 = 0x80) := by
  decide

/-- Clearing bit 0x20 on an ASCII lowercase letter preserves every
classification test of the scan. -/
theorem upper_letter_facts : ∀ z < 0x7b, 0x60 < z →
    ((z &&& 0xdf = 0) ↔ (z = 0)) ∧ ((z &&& 0xdf) &&& 0xc0 = 0x80 ↔ z &&& 0xc0 = 0x80) ∧
    ((z &&& 0xdf) &&& 0xe0 = 0xc0 ↔ z &&& 0xe0 = 0xc0) ∧
    ((z &&& 0xdf) &&& 0xf0 = 0xe0 ↔ z &&& 0xf0 = 0xe0) ∧
    ((z &&& 0xdf) &&& 0xf0 = 0xf0 ↔ z &&& 0xf0 = 0xf0) ∧ ¬(z &&& 0x80 = 0x80) := by
  decide

/-- C10: case folding is confined.  For every byte buffer, folding commutes
with validation (so on a valid buffer the result is still valid, with the very
same validator verdict on any buffer), and byte `i` of the result is the
original byte with bit 0x20 set (lowercase) or cleared (uppercase) when the
byte is an ASCII letter of the relevant case, and bit-identical otherwise. -/
theorem c10_ascii_case_folding (l : List Nat) :
    validate_modified_utf8 (JStr.make_ascii_lowercase l) = validate_modified_utf8 l ∧
    validate_modified_utf8 (JStr.make_ascii_uppercase l) = validate_modified_utf8 l ∧
    (∀ i : Fin l.length,
      (JStr.make_ascii_lowercase l).get
          (Fin.cast (List.length_map l (fun b => if 0x40 < b ∧ b < 0x5b then b ||| 0x20 else b)).symm i) =
        if 0x40 < l.get i ∧ l.get i < 0x5b then l.get i ||| 0x20 else l.get i) ∧
    (∀ i : Fin l.length,
      (JStr.make_ascii_uppercase l).get
          (Fin.cast (List.length_map l (fun b => if 0x60 < b ∧ b < 0x7b then b &&& 0xdf else b)).symm i) =
        if 0x60 < l.get i ∧ l.get i < 0x7b then l.get i &&& 0xdf else l.get i) := by
  refine ⟨?_, ?_, ?_, ?_⟩
  · unfold validate_modified_utf8 JStr.make_ascii_lowercase
    apply validateLoop_map
    · intro b
      by_cases hb : 0x40 < b ∧ b < 0x5b
      · rw [if_pos hb]; exact (lower_letter_facts b hb.2 hb.1).1
      · rw [if_neg hb]
    · intro b
      by_cases hb : 0x40 < b ∧ b < 0x5b
      · rw [if_pos hb]; exact (lower_letter_facts b hb.2 hb.1).2.1
      · rw [if_neg hb]
    · intro b
      by_cases hb : 0x40 < b ∧ b < 0x5b
      · rw [if_pos hb]; exact (lower_letter_facts b hb.2 hb.1).2.2.1
      · rw [if_neg hb]
    · intro b
      by_cases hb : 0x40 < b ∧ b < 0x5b
      · rw [if_pos hb]; exact (lower_letter_facts b hb.2 hb.1).2.2.2.1
      · rw [if_neg hb]
    · intro b
      by_cases hb : 0x40 < b ∧ b < 0x5b
      · rw [if_pos hb]; exact (lower_letter_facts b hb.2 hb.1).2.2.2.2.1
      · rw [if_neg hb]
    · intro b hbit
      by_cases hb : 0x40 < b ∧ b < 0x5b
      · exact absurd hbit (lower_letter_facts b hb.2 hb.1).2.2.2.2.2
      · rw [if_neg hb]
  · unfold validate_modified_utf8 JStr.make_ascii_uppercase
    apply validateLoop_map
    · intro b
      by_cases hb : 0x60 < b ∧ b < 0x7b
      · rw [if_pos hb]; exact (upper_letter_facts b hb.2 hb.1).1
      · rw [if_neg hb]
    · intro b
      by_cases hb : 0x60 < b ∧ b < 0x7b
      · rw [if_pos hb]; exact (upper_letter_facts b hb.2 hb.1).2.1
      · rw [if_neg hb]
    · intro b
      by_cases hb : 0x60 < b ∧ b < 0x7b
      · rw [if_pos hb]; exact (upper_letter_facts b hb.2 hb.1).2.2.1
      · rw [if_neg hb]
    · intro b
      by_cases hb : 0x60 < b ∧ b < 0x7b
      · rw [if_pos hb]; exact (upper_letter_facts b hb.2 hb.1).2.2.2.1
      · rw [if_neg hb]
    · intro b
      by_cases hb : 0x60 < b ∧ b < 0x7b
      · rw [if_pos hb]; exact (upper_letter_facts b hb.2 hb.1).2.2.2.2.1
      · rw [if_neg hb]
    · intro b hbit
      by_cases hb : 0x60 < b ∧ b < 0x7b
      · exact absurd hbit (upper_letter_facts b hb.2 hb.1).2.2.2.2.2
      · rw [if_neg hb]
  · intro i
    unfold JStr.make_ascii_lowercase
    simp [List.get_eq_getElem, List.getElem_map]
  · intro i
    unfold JStr.make_ascii_uppercase
    simp [List.get_eq_getElem, List.getElem_map]
